import Mathlib

/-!
Verification of the chunk-splitting scripts (msChunkSplit.js).

The repository holds three near-identical variants of one mongo shell
script: an anonymous IIFE (top of src/msChunkSplit.js, with the same
control flow as src/unnamed/part_000) and the function
splitCollectionChunks (bottom of src/msChunkSplit.js).  The development
below is a shallow embedding of the parts of the script relevant to the
frozen claims:

* shard-key values are modelled by integers, byte sizes by rationals
  (shell numbers), node and namespace ids by strings;
* the remote world (datasize, splitVector, splitChunk responses, the
  config catalog) is an explicit environment of response functions; a
  `none` response models a reply missing the relevant field, which makes
  the corresponding JS field access or `assert` throw;
* an uncaught shell `assert`/TypeError is an `Except.error` or an
  `Option String` carrying the message;
* the discovery list `CHUNKS` is a store (list) of chunk objects and
  `CHUNKS_TO_SPLIT` is the list of store indices of the pushed entries,
  which makes the JS reference aliasing explicit: pushing `c` pushes a
  reference, and the script's in-place field writes are store updates at
  that index;
* the remote commands whose ordering the claims constrain (split-point
  queries, version-fence reads, split commands, plus the failure log of a
  rejected split) are recorded in an event trace that is also returned on
  an aborted run.
-/

namespace MsChunkSplit

/-- A chunk work item as built by `getDatasizeArgs2` / `getDatasizeArgs`:
the request document for the datasize command (fields datasize,
keyPattern, min, max, estimate, shard) plus the fields the script later
writes onto the same object (chunkSize, canSplit, splitVector), modelled
as `Option` fields that start out absent. -/
structure Chunk where
  datasize : String
  keyPattern : String
  min : ℤ
  max : ℤ
  estimate : Bool
  shard : String
  chunkSize : Option ℚ := none
  canSplit : Option Bool := none
  splitVector : Option (List ℤ) := none
deriving DecidableEq, Repr, Inhabited

/-- The `config.settings` document with `_id: "chunksize"`; `value` is its
optional `value` field. -/
structure SettingsDoc where
  value : Option ℚ
deriving DecidableEq, Repr

/-- Argument document of the splitVector command, as built by
`getSplitVector`. -/
structure SVArgs where
  splitVector : String
  keyPattern : String
  min : ℤ
  max : ℤ
  maxChunkSizeBytes : ℚ
deriving DecidableEq, Repr

/-- Argument document of the splitChunk command, as built by `splitChunk`.
The JS field named `from` is called `fromShard` here; `shardVersion` is
the `[lastmod, lastmodEpoch]` pair, with both components opaque and
modelled by integers. -/
structure SplitArgs where
  splitChunk : String
  fromShard : String
  min : ℤ
  max : ℤ
  keyPattern : String
  splitKeys : List ℤ
  configdb : String
  shardVersion : ℤ × ℤ
deriving DecidableEq, Repr

/-- The remote commands (and the failure printout) whose occurrence and
order the claims constrain: split-point queries of step 3, version-fence
reads and split commands of step 4, and the error printout produced for a
rejected split.  `execSplit` records both the candidate chunk and the
argument document actually sent. -/
inductive Event where
  | splitPtsQuery (args : SVArgs)
  | fenceRead (c : Chunk)
  | execSplit (c : Chunk) (args : SplitArgs)
  | logFailure (args : SplitArgs) (ok : ℚ)
deriving DecidableEq, Repr

/-- The two source variants: the anonymous IIFE script (top of
msChunkSplit.js; src/unnamed/part_000 has the same control flow for the
claims modelled here) and the splitCollectionChunks function (bottom of
msChunkSplit.js). -/
inductive Variant
  | iife
  | func
deriving DecidableEq, Repr

/-- The remote world: responses of the storage nodes and of the config
catalog, as functions of the request documents the script sends.  A
`none` models a response in which the relevant field (or document) is
missing, so that the JS access or assert on it throws.
`chunkVersionDoc` is the `config.chunks` lookup of the IIFE variant's
`getShardVersion`; `nsVersionRes` is the getShardVersion admin command of
the splitCollectionChunks variant (`none` also covers its failed ok
asserts); `authorized` is the result of `isAuthorizedToSplit` in the
splitCollectionChunks variant. -/
structure Env where
  datasizeRes : Chunk → Option ℚ
  splitKeysRes : SVArgs → Option (List ℤ)
  chunkVersionDoc : Chunk → Option (ℤ × ℤ)
  nsVersionRes : String → Option (ℤ × ℤ)
  splitRes : SplitArgs → Option ℚ
  authorized : Bool

/-- The script globals of one run.  In the sources `SPLIT_THRESHOLD` is
`MAX_CHUNK_SIZE * 0.2` (IIFE) respectively `MAX_CHUNK_SIZE * 0.9`
(part_000 and splitCollectionChunks); it is kept as an explicit field. -/
structure Cfg where
  optimize : Bool
  doublecheck : Bool
  maxChunkSize : ℚ
  splitThreshold : ℚ
  configsvr : String

/-- `getChunkSize` of the IIFE variant (msChunkSplit.js lines 10-18):
the configured `chunksize` value converted to bytes, or 64 MiB when no
chunksize document exists.  `assert(res.value, ...)` throws when the
value field is missing or `0` (JS falsiness); `assert.lte(0, res.value)`
throws exactly when the value is negative. -/
def getChunkSize (doc : Option SettingsDoc) : Except String ℚ :=
  match doc with
  | none => .ok (64 * 1024 * 1024)
  | some d =>
    match d.value with
    | none => .error "value field is not present"
    | some v =>
      if v = 0 then .error "value field is not present"
      else if 0 ≤ v then .ok (v * 1024 * 1024)
      else .error "maximum chunksize value is less than or equal to 0"

/-- `getChunkSize` of the splitCollectionChunks variant (lines 405-414):
the presence check uses `hasOwnProperty`, so a present value of `0`
passes that assert, and `assert.lte(0, 0)` also passes, so 0 bytes is
returned. -/
def getChunkSizeFunc (doc : Option SettingsDoc) : Except String ℚ :=
  match doc with
  | none => .ok (64 * 1024 * 1024)
  | some d =>
    match d.value with
    | none => .error "value field is not present"
    | some v =>
      if 0 ≤ v then .ok (v * 1024 * 1024)
      else .error "maximum chunksize value is less than or equal to 0"

/-- The sample size computed by `getDatasizeArgs2` / `getDatasizeArgs`
(msChunkSplit.js lines 62-63 and 458-459, part_000 lines 78-79):
`count * percentage`, clamped below to 1.  No rounding takes place in the
source. -/
def sampleValue (count : ℕ) (percentage : ℚ) : ℚ :=
  let s := (count : ℚ) * percentage
  if s < 1 then 1 else s

/-- Modelled from the claim's wording only (for comparison with
`sampleValue`): `sampleSize = max(1, round(totalChunkCount *
samplingFraction))`. -/
def sampleSizeClaim (count : ℕ) (fraction : ℚ) : ℚ :=
  ((max 1 (round ((count : ℚ) * fraction)) : ℤ) : ℚ)

/-- `checkChunkSize2` (IIFE variant, msChunkSplit.js lines 81-99; part_000
lines 97-115 is identical).  Returns the possibly mutated chunk (its
`estimate` field is set to false before the double-check query) together
with the value the JS function returns.  `assert(res.size, ...)` throws
when the size field is missing or `0` (JS falsiness).  Note that the
inner comparison of the double-check branch re-tests the first
(estimated) `chunkSize`, not the fresh `res.size`: that is what the
source does. -/
def checkChunkSize2 (env : Env) (cfg : Cfg) (chunk : Chunk) :
    Except String (Chunk × ℚ) :=
  match env.datasizeRes chunk with
  | none => .error "The size field is not present it the response"
  | some sz =>
    if sz = 0 then .error "The size field is not present it the response"
    else if sz > cfg.splitThreshold then
      if cfg.optimize && cfg.doublecheck then
        let chunk2 : Chunk := { chunk with estimate := false }
        match env.datasizeRes chunk2 with
        | none => .error "The size field is not present it the response"
        | some sz2 =>
          if sz2 = 0 then .error "The size field is not present it the response"
          else if sz > cfg.splitThreshold then .ok (chunk2, sz2)
          else .ok (chunk2, -1)
      else .ok (chunk, sz)
    else .ok (chunk, -1)

/-- `checkChunkSize` (splitCollectionChunks variant, lines 476-495): the
outer comparison is non-strict (`>=`) and the presence checks use
`hasOwnProperty`, so a present size of `0` is usable.  As in
`checkChunkSize2`, the inner comparison re-tests the first `chunkSize`
rather than the fresh exact `res.size`. -/
def checkChunkSize (env : Env) (cfg : Cfg) (chunk : Chunk) :
    Except String (Chunk × ℚ) :=
  match env.datasizeRes chunk with
  | none => .error "The size field is not present it the response"
  | some sz =>
    if sz ≥ cfg.splitThreshold then
      if cfg.optimize && cfg.doublecheck then
        let chunk2 : Chunk := { chunk with estimate := false }
        match env.datasizeRes chunk2 with
        | none => .error "The size field is not present in the response"
        | some sz2 =>
          if sz > cfg.splitThreshold then .ok (chunk2, sz2)
          else .ok (chunk2, -1)
      else .ok (chunk, sz)
    else .ok (chunk, -1)

/-- The size check the given variant's MAIN section calls in step 2. -/
def checkChunk : Variant → Env → Cfg → Chunk → Except String (Chunk × ℚ)
  | .iife => checkChunkSize2
  | .func => checkChunkSize

/-- The splitVector argument document built by `getSplitVector`. -/
def mkSVArgs (maxChunkSize : ℚ) (c : Chunk) : SVArgs :=
  ⟨c.datasize, c.keyPattern, c.min, c.max, maxChunkSize⟩

/-- `getSplitVector` (msChunkSplit.js lines 103-116 and 499-515): when the
response carries a non-empty `splitKeys` list the chunk is annotated in
place with `canSplit = true` and the `splitVector`; otherwise the chunk
is left unchanged.  A missing `splitKeys` field throws (a direct
`.length` access in the IIFE variant, an assert in the other). -/
def getSplitVector (env : Env) (maxChunkSize : ℚ) (c : Chunk) :
    Except String Chunk :=
  match env.splitKeysRes (mkSVArgs maxChunkSize c) with
  | none => .error "The splitKey field is not present"
  | some sv =>
    if sv.length > 0 then .ok { c with canSplit := some true, splitVector := some sv }
    else .ok c

/-- `getShardVersion`: the IIFE variant (lines 120-131) reads `lastmod`
and `lastmodEpoch` from the chunk's document in `config.chunks`; the
splitCollectionChunks variant (lines 519-528) runs the getShardVersion
admin command on the namespace.  A `none` models a missing document (the
field access throws) respectively a failed assert on the response. -/
def getShardVersionRun : Variant → Env → Chunk → Except String (ℤ × ℤ)
  | .iife, env, c =>
    match env.chunkVersionDoc c with
    | none => .error "TypeError: cannot read property lastmod of null"
    | some ver => .ok ver
  | .func, env, c =>
    match env.nsVersionRes c.datasize with
    | none => .error "Failed to obtain the shard version"
    | some ver => .ok ver

/-- The splitChunk argument document built by `splitChunk` from a
candidate: the candidate's identity, its `splitVector` annotation, the
config-server address and the version fence just read. -/
def mkSplitArgs (configsvr : String) (c : Chunk) (ver : ℤ × ℤ) : SplitArgs :=
  ⟨c.datasize, c.shard, c.min, c.max, c.keyPattern, (c.splitVector).getD [],
    configsvr, ver⟩

/-- `splitChunk`: issues the splitChunk command and inspects the `ok`
field of the response.  In the IIFE variant (lines 135-156)
`assert(res.ok, ...)` throws when `ok` is missing or `0` (JS falsiness),
so a rejected split with `ok: 0` aborts the run before the error
printout is reached; the splitCollectionChunks variant (lines 532-553)
checks presence with `hasOwnProperty` and then logs any `ok` different
from 1 and returns normally, letting the loop continue.  The returned
event list holds the issued command and any failure printout; the
`Option String` is the thrown assertion, if any. -/
def splitChunkRun (v : Variant) (env : Env) (c : Chunk) (args : SplitArgs) :
    List Event × Option String :=
  let issued := [Event.execSplit c args]
  match env.splitRes args with
  | none => (issued, some "The ok field is not present")
  | some ok =>
    match v with
    | .iife =>
      if ok = 0 then (issued, some "assert failed on a falsy ok value")
      else if ok ≠ 1 then (issued ++ [Event.logFailure args ok], none)
      else (issued, none)
    | .func =>
      if ok ≠ 1 then (issued ++ [Event.logFailure args ok], none)
      else (issued, none)

/-- MAIN step 2 (lines 211-219, 650-660; part_000 lines 233-241):
`CHUNKS.forEach`, checking each chunk's size and pushing the qualifying
ones.  The first argument list holds the store indices still to process;
the accumulator is `CHUNKS_TO_SPLIT`.  A chunk whose check returns a
positive value is annotated in place with `chunkSize` and
`canSplit = false` and its index is pushed. -/
def step2Aux (v : Variant) (env : Env) (cfg : Cfg) :
    List ℕ → List Chunk → List ℕ → Except String (List Chunk × List ℕ)
  | [], store, acc => .ok (store, acc)
  | i :: rest, store, acc =>
    match checkChunk v env cfg (store.getD i default) with
    | .error e => .error e
    | .ok (c2, sz) =>
      if sz > 0 then
        step2Aux v env cfg rest
          (store.set i { c2 with chunkSize := some sz, canSplit := some false })
          (acc ++ [i])
      else
        step2Aux v env cfg rest (store.set i c2) acc

/-- MAIN step 2 over the whole discovery store. -/
def step2 (v : Variant) (env : Env) (cfg : Cfg) (store : List Chunk) :
    Except String (List Chunk × List ℕ) :=
  step2Aux v env cfg (List.range store.length) store []

/-- MAIN step 3 (lines 226-231, 672-685):
`CHUNKS_TO_SPLIT.forEach(getSplitVector)`, again through the shared
store.  Returns the issued split-point queries and either the updated
store or the thrown error. -/
def step3Aux (env : Env) (maxChunkSize : ℚ) :
    List ℕ → List Chunk → List Event × Except String (List Chunk)
  | [], store => ([], .ok store)
  | i :: rest, store =>
    let c := store.getD i default
    let args := mkSVArgs maxChunkSize c
    match getSplitVector env maxChunkSize c with
    | .error e => ([Event.splitPtsQuery args], .error e)
    | .ok c2 =>
      let r := step3Aux env maxChunkSize rest (store.set i c2)
      (Event.splitPtsQuery args :: r.1, r.2)

/-- MAIN step 4 (lines 238-245, 695-711; part_000 lines 260-267): for
each entry of `CHUNKS_TO_SPLIT` with `canSplit == true`, read the
version fence and then issue the split command, continuing with the next
entry unless an uncaught assertion aborts the run. -/
def step4Aux (v : Variant) (env : Env) (configsvr : String) (store : List Chunk) :
    List ℕ → List Event × Option String
  | [] => ([], none)
  | i :: rest =>
    let c := store.getD i default
    if c.canSplit = some true then
      match getShardVersionRun v env c with
      | .error e => ([Event.fenceRead c], some e)
      | .ok ver =>
        let args := mkSplitArgs configsvr c ver
        let r1 := splitChunkRun v env c args
        match r1.2 with
        | some e => (Event.fenceRead c :: r1.1, some e)
        | none =>
          let r2 := step4Aux v env configsvr store rest
          (Event.fenceRead c :: r1.1 ++ r2.1, r2.2)
    else step4Aux v env configsvr store rest

/-- `getCouldSplitChunkCounts`: the entries of `CHUNKS_TO_SPLIT` whose
`chunkSize` field differs from -1 (a missing field also counts, since
`undefined != -1` in JS). -/
def getCouldSplitChunkCounts (store : List Chunk) (toSplit : List ℕ) : ℕ :=
  (toSplit.filter (fun i =>
    match (store.getD i default).chunkSize with
    | none => true
    | some q => decide (q ≠ -1))).length

/-- `getSplitChunkCounts`: the entries of `CHUNKS_TO_SPLIT` with
`canSplit == true`. -/
def getSplitChunkCounts (store : List Chunk) (toSplit : List ℕ) : ℕ :=
  (toSplit.filter (fun i =>
    decide ((store.getD i default).canSplit = some true))).length

/-- The MAIN section as one run.  The sampled chunk list built by step 1
is the input store (the `$sample` draw is external and random); the
result is the trace of modelled remote commands together with the error
that aborted the run, if any.  `getChunkCounts` makes an empty store a
fatal error.  Step 5 re-issues only discovery queries, which are not
part of the modelled trace.  The splitCollectionChunks variant
additionally skips step 4 (and step 5) when the shard connections lack
the internal privilege. -/
def mainRun (v : Variant) (env : Env) (cfg : Cfg) (doSplit : Bool)
    (store0 : List Chunk) : List Event × Option String :=
  if store0.length = 0 then ([], some "no chunks found")
  else
    match step2 v env cfg store0 with
    | .error e => ([], some e)
    | .ok (store1, toSplit) =>
      if getCouldSplitChunkCounts store1 toSplit = 0 then ([], none)
      else
        match (step3Aux env cfg.maxChunkSize toSplit store1).2 with
        | .error e => ((step3Aux env cfg.maxChunkSize toSplit store1).1, some e)
        | .ok store2 =>
          if getSplitChunkCounts store2 toSplit = 0 then
            ((step3Aux env cfg.maxChunkSize toSplit store1).1, none)
          else if doSplit then
            if v = Variant.func ∧ env.authorized = false then
              ((step3Aux env cfg.maxChunkSize toSplit store1).1, none)
            else
              ((step3Aux env cfg.maxChunkSize toSplit store1).1 ++
                (step4Aux v env cfg.configsvr store2 toSplit).1,
               (step4Aux v env cfg.configsvr store2 toSplit).2)
          else ((step3Aux env cfg.maxChunkSize toSplit store1).1, none)

/-- Whether step 2 pushes a given chunk onto `CHUNKS_TO_SPLIT`: its size
check succeeds and returns a positive value. -/
def pushB (v : Variant) (env : Env) (cfg : Cfg) (c : Chunk) : Bool :=
  match checkChunk v env cfg c with
  | .ok (_, sz) => decide (sz > 0)
  | .error _ => false

/-- The qualifying comparison the default estimate-only mode actually
uses: strict in the IIFE variant, non-strict in splitCollectionChunks. -/
def qualifies : Variant → ℚ → ℚ → Bool
  | .iife, sz, thr => decide (thr < sz)
  | .func, sz, thr => decide (thr ≤ sz)

/-- Is the event a split command? -/
def Event.isExec : Event → Bool
  | .execSplit _ _ => true
  | _ => false

/-- Is the event a split-point (planning) query? -/
def Event.isPlan : Event → Bool
  | .splitPtsQuery _ => true
  | _ => false

/-- Is the event a version-fence read? -/
def Event.isFence : Event → Bool
  | .fenceRead _ => true
  | _ => false

/-- Every split command in the trace is for a chunk whose `canSplit`
annotation is true. -/
def execOnlySplittable (tr : List Event) : Bool :=
  tr.all fun e =>
    match e with
    | .execSplit c _ => decide (c.canSplit = some true)
    | _ => true

/-- After step 2 every pushed entry of the shared store carries
`canSplit = false` (trivially true for an aborted step 2). -/
def pushedCanSplitFalse (v : Variant) (env : Env) (cfg : Cfg)
    (store : List Chunk) : Bool :=
  match step2 v env cfg store with
  | .ok (store2, ts) =>
      ts.all fun i => decide ((store2.getD i default).canSplit = some false)
  | .error _ => true

/-- An adjacent pair of trace events is admissible when its second
component, if a split command, directly follows the fence read of the
same candidate. -/
def pairOK : Event → Event → Bool
  | a, .execSplit c _ =>
    match a with
    | .fenceRead c2 => decide (c2 = c)
    | _ => false
  | _, _ => true

/-- All adjacent pairs of the trace are admissible. -/
def fencedPairs : List Event → Bool
  | a :: b :: rest => pairOK a b && fencedPairs (b :: rest)
  | _ => true

/-- The trace does not begin with a split command. -/
def headNotExec : List Event → Bool
  | [] => true
  | e :: _ => !(Event.isExec e)

/-- Every split command in the trace is immediately preceded by the
fence read of the same candidate. -/
def execsImmediatelyFenced (tr : List Event) : Bool :=
  headNotExec tr && fencedPairs tr

/-- No split-point (planning) query occurs at or after the first
version-fence read of the trace. -/
def noPlanAfterFence (tr : List Event) : Bool :=
  (tr.dropWhile fun e => !(Event.isFence e)).all fun e => !(Event.isPlan e)

/-! ### Helper lemmas -/

theorem checkChunk_missing (v : Variant) (env : Env) (cfg : Cfg) (c : Chunk)
    (h : env.datasizeRes c = none) :
    checkChunk v env cfg c = .error "The size field is not present it the response" := by
  cases v <;> simp [checkChunk, checkChunkSize2, checkChunkSize, h]

theorem getD_set_ne (store : List Chunk) (a : Chunk) (i j : ℕ) (h : i ≠ j) :
    (store.set i a).getD j default = store.getD j default := by
  simp [List.getD_eq_getElem?_getD, List.getElem?_set_ne h]

theorem getD_set_self (store : List Chunk) (a : Chunk) (i : ℕ)
    (h : i < store.length) :
    (store.set i a).getD i default = a := by
  simp [List.getD_eq_getElem?_getD, List.getElem?_set_eq_of_lt _ h]

theorem pushB_eq (v : Variant) (env : Env) (cfg : Cfg) (c : Chunk)
    (hdc : cfg.doublecheck = false) (hthr : 0 < cfg.splitThreshold) :
    pushB v env cfg c =
      (match env.datasizeRes c with
       | none => false
       | some sz => qualifies v sz cfg.splitThreshold) := by
  cases v <;>
    rcases hres : env.datasizeRes c with _ | sz <;>
      simp only [pushB, checkChunk, checkChunkSize2, checkChunkSize, qualifies, hres, hdc,
        Bool.and_false]
  · by_cases h0 : sz = 0
    · subst h0
      simp only [if_pos rfl]
      have : ¬ cfg.splitThreshold < 0 := by linarith
      simp [this]
    · rw [if_neg h0]
      by_cases hgt : sz > cfg.splitThreshold
      · rw [if_pos hgt]
        have h1 : sz > 0 := lt_trans hthr hgt
        simp [h1, hgt, le_of_lt hgt]
      · rw [if_neg hgt]
        have : ¬ ((-1 : ℚ) > 0) := by norm_num
        simp only [gt_iff_lt] at hgt ⊢
        simp [hgt, this]
  · by_cases hge : sz ≥ cfg.splitThreshold
    · rw [if_pos hge]
      have h1 : sz > 0 := lt_of_lt_of_le hthr hge
      simp [h1, hge]
    · rw [if_neg hge]
      have : ¬ ((-1 : ℚ) > 0) := by norm_num
      simp only [ge_iff_le] at hge ⊢
      simp [hge, this]

theorem step2Aux_ok_ts (v : Variant) (env : Env) (cfg : Cfg) :
    ∀ (idxs : List ℕ) (store : List Chunk) (acc : List ℕ)
      (store2 : List Chunk) (ts : List ℕ), idxs.Nodup →
      step2Aux v env cfg idxs store acc = .ok (store2, ts) →
      ts = acc ++ idxs.filter (fun i => pushB v env cfg (store.getD i default)) := by
  intro idxs
  induction idxs with
  | nil =>
    intro store acc store2 ts _ h
    simp only [step2Aux, Except.ok.injEq, Prod.mk.injEq] at h
    simp [h.2.symm]
  | cons i rest ih =>
    intro store acc store2 ts hnd h
    obtain ⟨hni, hndr⟩ := List.nodup_cons.mp hnd
    rcases hcc : checkChunk v env cfg (store.getD i default) with e | ⟨c2, sz⟩ <;>
      simp only [step2Aux, hcc] at h
    · exact absurd h (by simp)
    have hpush : pushB v env cfg (store.getD i default) = decide (sz > 0) := by
      unfold pushB
      rw [hcc]
    by_cases hsz : sz > 0
    · rw [if_pos hsz] at h
      have hts := ih _ _ _ _ hndr h
      have hfeq : rest.filter
          (fun j => pushB v env cfg
            ((store.set i { c2 with chunkSize := some sz, canSplit := some false }).getD j default)) =
          rest.filter (fun j => pushB v env cfg (store.getD j default)) := by
        refine List.filter_congr ?_
        intro j hj
        rw [getD_set_ne store _ i j (fun hij => hni (hij ▸ hj))]
      rw [hfeq] at hts
      rw [hts, List.filter_cons, hpush]
      simp [hsz]
    · rw [if_neg hsz] at h
      have hts := ih _ _ _ _ hndr h
      have hfeq : rest.filter (fun j => pushB v env cfg ((store.set i c2).getD j default)) =
          rest.filter (fun j => pushB v env cfg (store.getD j default)) := by
        refine List.filter_congr ?_
        intro j hj
        rw [getD_set_ne store _ i j (fun hij => hni (hij ▸ hj))]
      rw [hfeq] at hts
      rw [hts, List.filter_cons, hpush]
      simp [hsz]

theorem step2Aux_ok_store (v : Variant) (env : Env) (cfg : Cfg) :
    ∀ (idxs : List ℕ) (store : List Chunk) (acc : List ℕ)
      (store2 : List Chunk) (ts : List ℕ), idxs.Nodup →
      (∀ j ∈ idxs, j < store.length) →
      step2Aux v env cfg idxs store acc = .ok (store2, ts) →
      store2.length = store.length ∧
      (∀ j, j ∉ idxs → store2.getD j default = store.getD j default) ∧
      (∀ j ∈ idxs, ∃ c2 sz,
        checkChunk v env cfg (store.getD j default) = .ok (c2, sz) ∧
        store2.getD j default =
          (if sz > 0 then { c2 with chunkSize := some sz, canSplit := some false } else c2)) := by
  intro idxs
  induction idxs with
  | nil =>
    intro store acc store2 ts _ _ h
    simp only [step2Aux, Except.ok.injEq, Prod.mk.injEq] at h
    exact ⟨by rw [← h.1], fun j _ => by rw [← h.1], by simp⟩
  | cons i rest ih =>
    intro store acc store2 ts hnd hb h
    obtain ⟨hni, hndr⟩ := List.nodup_cons.mp hnd
    have hib : i < store.length := hb i (by simp)
    rcases hcc : checkChunk v env cfg (store.getD i default) with e | ⟨c2, sz⟩ <;>
      simp only [step2Aux, hcc] at h
    · exact absurd h (by simp)
    by_cases hsz : sz > 0
    · rw [if_pos hsz] at h
      have hbr : ∀ j ∈ rest,
          j < (store.set i { c2 with chunkSize := some sz, canSplit := some false }).length := by
        intro j hj
        rw [List.length_set]
        exact hb j (by simp [hj])
      obtain ⟨hlen, huntouched, hproc⟩ := ih _ _ _ _ hndr hbr h
      rw [List.length_set] at hlen
      refine ⟨hlen, ?_, ?_⟩
      · intro j hj
        have hji : j ≠ i := fun hji => hj (by simp [hji])
        have hjr : j ∉ rest := fun hjr => hj (by simp [hjr])
        rw [huntouched j hjr, getD_set_ne store _ i j (fun hij => hji hij.symm)]
      · intro j hj
        rcases List.mem_cons.mp hj with hji | hjr
        · subst hji
          refine ⟨c2, sz, hcc, ?_⟩
          rw [huntouched j hni, getD_set_self store _ j hib, if_pos hsz]
        · have hji : j ≠ i := fun hji => hni (hji ▸ hjr)
          obtain ⟨c3, sz3, hcc3, hst3⟩ := hproc j hjr
          rw [getD_set_ne store _ i j (fun hij => hji hij.symm)] at hcc3
          exact ⟨c3, sz3, hcc3, hst3⟩
    · rw [if_neg hsz] at h
      have hbr : ∀ j ∈ rest, j < (store.set i c2).length := by
        intro j hj
        rw [List.length_set]
        exact hb j (by simp [hj])
      obtain ⟨hlen, huntouched, hproc⟩ := ih _ _ _ _ hndr hbr h
      rw [List.length_set] at hlen
      refine ⟨hlen, ?_, ?_⟩
      · intro j hj
        have hji : j ≠ i := fun hji => hj (by simp [hji])
        have hjr : j ∉ rest := fun hjr => hj (by simp [hjr])
        rw [huntouched j hjr, getD_set_ne store _ i j (fun hij => hji hij.symm)]
      · intro j hj
        rcases List.mem_cons.mp hj with hji | hjr
        · subst hji
          refine ⟨c2, sz, hcc, ?_⟩
          rw [huntouched j hni, getD_set_self store _ j hib, if_neg hsz]
        · have hji : j ≠ i := fun hji => hni (hji ▸ hjr)
          obtain ⟨c3, sz3, hcc3, hst3⟩ := hproc j hjr
          rw [getD_set_ne store _ i j (fun hij => hji hij.symm)] at hcc3
          exact ⟨c3, sz3, hcc3, hst3⟩

theorem step2Aux_error_of_missing (v : Variant) (env : Env) (cfg : Cfg) :
    ∀ (idxs : List ℕ) (store : List Chunk) (acc : List ℕ) (i : ℕ),
      idxs.Nodup → i ∈ idxs → env.datasizeRes (store.getD i default) = none →
      ∃ e, step2Aux v env cfg idxs store acc = .error e := by
  intro idxs
  induction idxs with
  | nil => intro _ _ i _ hmem; exact absurd hmem (by simp)
  | cons j rest ih =>
    intro store acc i hnd hmem hmiss
    obtain ⟨hnj, hndr⟩ := List.nodup_cons.mp hnd
    rcases List.mem_cons.mp hmem with hij | hir
    · subst hij
      refine ⟨"The size field is not present it the response", ?_⟩
      simp only [step2Aux, checkChunk_missing v env cfg _ hmiss]
    · have hij : i ≠ j := fun hij => hnj (hij ▸ hir)
      rcases hcc : checkChunk v env cfg (store.getD j default) with e | ⟨c2, sz⟩ <;>
        simp only [step2Aux, hcc]
      · exact ⟨e, rfl⟩
      · by_cases hsz : sz > 0
        · rw [if_pos hsz]
          exact ih _ _ i hndr hir (by rwa [getD_set_ne store _ j i (fun h => hij h.symm)])
        · rw [if_neg hsz]
          exact ih _ _ i hndr hir (by rwa [getD_set_ne store _ j i (fun h => hij h.symm)])

theorem step3Aux_events (env : Env) (mcs : ℚ) :
    ∀ (idxs : List ℕ) (store : List Chunk),
      (step3Aux env mcs idxs store).1.all Event.isPlan = true := by
  intro idxs
  induction idxs with
  | nil => intro store; rfl
  | cons i rest ih =>
    intro store
    simp only [step3Aux]
    rcases h : getSplitVector env mcs (store.getD i default) with e | c2 <;>
      simp [h, Event.isPlan, ih]

theorem step3Aux_ok_store (env : Env) (mcs : ℚ) :
    ∀ (idxs : List ℕ) (store store2 : List Chunk) (evs : List Event), idxs.Nodup →
      (∀ j ∈ idxs, j < store.length) →
      step3Aux env mcs idxs store = (evs, .ok store2) →
      store2.length = store.length ∧
      (∀ j, j ∉ idxs → store2.getD j default = store.getD j default) ∧
      (∀ j ∈ idxs, getSplitVector env mcs (store.getD j default) = .ok (store2.getD j default)) := by
  intro idxs
  induction idxs with
  | nil =>
    intro store store2 evs _ _ h
    simp only [step3Aux, Prod.mk.injEq, Except.ok.injEq] at h
    exact ⟨by rw [← h.2], fun j _ => by rw [← h.2], by simp⟩
  | cons i rest ih =>
    intro store store2 evs hnd hb h
    obtain ⟨hni, hndr⟩ := List.nodup_cons.mp hnd
    have hib : i < store.length := hb i (by simp)
    simp only [step3Aux] at h
    rcases hgv : getSplitVector env mcs (store.getD i default) with e | c2 <;>
      simp only [hgv, Prod.mk.injEq] at h
    · exact absurd h.2 (by simp)
    · have hrec : step3Aux env mcs rest (store.set i c2) =
          ((step3Aux env mcs rest (store.set i c2)).1, .ok store2) := by
        rw [← h.2]
      have hbr : ∀ j ∈ rest, j < (store.set i c2).length := by
        intro j hj
        rw [List.length_set]
        exact hb j (by simp [hj])
      obtain ⟨hlen, huntouched, hproc⟩ := ih _ _ _ hndr hbr hrec
      rw [List.length_set] at hlen
      refine ⟨hlen, ?_, ?_⟩
      · intro j hj
        have hji : j ≠ i := fun hji => hj (by simp [hji])
        have hjr : j ∉ rest := fun hjr => hj (by simp [hjr])
        rw [huntouched j hjr, getD_set_ne store _ i j (fun hij => hji hij.symm)]
      · intro j hj
        rcases List.mem_cons.mp hj with hji | hjr
        · subst hji
          rw [huntouched j hni, getD_set_self store _ j hib]
          exact hgv
        · have hji : j ≠ i := fun hji => hni (hji ▸ hjr)
          have := hproc j hjr
          rwa [getD_set_ne store _ i j (fun hij => hji hij.symm)] at this

theorem splitChunkRun_fst (v : Variant) (env : Env) (c : Chunk) (args : SplitArgs) :
    (splitChunkRun v env c args).1 = [Event.execSplit c args] ∨
    ∃ okv, (splitChunkRun v env c args).1 =
      [Event.execSplit c args, Event.logFailure args okv] := by
  unfold splitChunkRun
  rcases env.splitRes args with _ | ok
  · exact .inl rfl
  · cases v <;> dsimp only
    · by_cases h0 : ok = 0
      · exact .inl (by simp [h0])
      · by_cases h1 : ok = 1
        · exact .inl (by simp [h0, h1])
        · exact .inr ⟨ok, by simp [h0, h1]⟩
    · by_cases h1 : ok = 1
      · exact .inl (by simp [h1])
      · exact .inr ⟨ok, by simp [h1]⟩

theorem not_exec_of_isPlan (e : Event) (h : Event.isPlan e = true) :
    (!(Event.isExec e)) = true := by
  cases e <;> simp_all [Event.isPlan, Event.isExec]

theorem all_not_exec_of_all_isPlan (tr : List Event) (h : tr.all Event.isPlan = true) :
    tr.all (fun e => !(Event.isExec e)) = true := by
  rw [List.all_eq_true] at h ⊢
  exact fun e he => not_exec_of_isPlan e (h e he)

theorem headNotExec_of_not_exec (tr : List Event)
    (h : tr.all (fun e => !(Event.isExec e)) = true) : headNotExec tr = true := by
  cases tr with
  | nil => rfl
  | cons a r =>
    simp only [List.all_cons, Bool.and_eq_true] at h
    simp [headNotExec, h.1]

theorem headNotExec_append (xs ys : List Event)
    (hx : xs.all (fun e => !(Event.isExec e)) = true)
    (hy : headNotExec ys = true) : headNotExec (xs ++ ys) = true := by
  cases xs with
  | nil => simpa
  | cons a r =>
    simp only [List.all_cons, Bool.and_eq_true] at hx
    simp [headNotExec, hx.1]

theorem fencedPairs_cons (x : Event) (ys : List Event)
    (h1 : headNotExec ys = true) (h2 : fencedPairs ys = true) :
    fencedPairs (x :: ys) = true := by
  cases ys with
  | nil => rfl
  | cons y yr =>
    have hy : pairOK x y = true := by
      cases y <;> simp_all [pairOK, headNotExec, Event.isExec]
    simp only [fencedPairs, Bool.and_eq_true]
    exact ⟨hy, h2⟩

theorem fencedPairs_of_not_exec (tr : List Event)
    (h : tr.all (fun e => !(Event.isExec e)) = true) : fencedPairs tr = true := by
  induction tr with
  | nil => rfl
  | cons a rest ihr =>
    simp only [List.all_cons, Bool.and_eq_true] at h
    exact fencedPairs_cons a rest (headNotExec_of_not_exec rest h.2) (ihr h.2)

theorem fencedPairs_append (xs ys : List Event) (hx : fencedPairs xs = true)
    (hy1 : headNotExec ys = true) (hy2 : fencedPairs ys = true) :
    fencedPairs (xs ++ ys) = true := by
  induction xs with
  | nil => simpa
  | cons a r ihr =>
    cases r with
    | nil => exact fencedPairs_cons a ys hy1 hy2
    | cons b rb =>
      simp only [fencedPairs, Bool.and_eq_true] at hx
      have htl := ihr hx.2
      simp only [List.cons_append, fencedPairs, Bool.and_eq_true]
      exact ⟨hx.1, by simpa using htl⟩

theorem dropWhile_append_all {q : Event → Bool} (xs ys : List Event)
    (h : ∀ x ∈ xs, q x = true) :
    (xs ++ ys).dropWhile q = ys.dropWhile q := by
  induction xs with
  | nil => rfl
  | cons a as ihx =>
    simp only [List.cons_append, List.dropWhile_cons, h a (by simp)]
    exact ihx (fun x hx => h x (by simp [hx]))

theorem all_dropWhile {p q : Event → Bool} (l : List Event) (h : l.all p = true) :
    (l.dropWhile q).all p = true := by
  rw [List.all_eq_true] at h ⊢
  exact fun e he => h e ((l.dropWhile_sublist q).subset he)

theorem allNotPlan_cons (e : Event) (tr : List Event) (he : Event.isPlan e = false)
    (h : tr.all (fun x => !(Event.isPlan x)) = true) :
    (e :: tr).all (fun x => !(Event.isPlan x)) = true := by
  simp only [List.all_cons, Bool.and_eq_true, he]
  exact ⟨rfl, h⟩

theorem execOnly_fence (c : Chunk) (tr : List Event)
    (h : execOnlySplittable tr = true) :
    execOnlySplittable (Event.fenceRead c :: tr) = true := by
  simp only [execOnlySplittable, List.all_cons, Bool.and_eq_true] at h ⊢
  exact ⟨trivial, h⟩

theorem execOnly_log (args : SplitArgs) (okv : ℚ) (tr : List Event)
    (h : execOnlySplittable tr = true) :
    execOnlySplittable (Event.logFailure args okv :: tr) = true := by
  simp only [execOnlySplittable, List.all_cons, Bool.and_eq_true] at h ⊢
  exact ⟨trivial, h⟩

theorem execOnly_exec (c : Chunk) (args : SplitArgs) (tr : List Event)
    (hc : c.canSplit = some true) (h : execOnlySplittable tr = true) :
    execOnlySplittable (Event.execSplit c args :: tr) = true := by
  simp only [execOnlySplittable, List.all_cons, Bool.and_eq_true] at h ⊢
  exact ⟨decide_eq_true hc, h⟩

theorem fencedPairs_fence_exec (c : Chunk) (args : SplitArgs) (tr : List Event)
    (h1 : headNotExec tr = true) (h2 : fencedPairs tr = true) :
    fencedPairs (Event.fenceRead c :: Event.execSplit c args :: tr) = true := by
  simp only [fencedPairs, Bool.and_eq_true]
  exact ⟨by simp [pairOK], fencedPairs_cons _ _ h1 h2⟩

theorem step4Aux_wf (v : Variant) (env : Env) (cs : String) (store : List Chunk) :
    ∀ idxs : List ℕ,
      headNotExec (step4Aux v env cs store idxs).1 = true ∧
      fencedPairs (step4Aux v env cs store idxs).1 = true ∧
      (step4Aux v env cs store idxs).1.all (fun e => !(Event.isPlan e)) = true ∧
      execOnlySplittable (step4Aux v env cs store idxs).1 = true := by
  intro idxs
  induction idxs with
  | nil => exact ⟨rfl, rfl, rfl, rfl⟩
  | cons i rest ih =>
    obtain ⟨ih1, ih2, ih3, ih4⟩ := ih
    simp only [step4Aux]
    by_cases hcs : (store.getD i default).canSplit = some true
    · rw [if_pos hcs]
      rcases hver : getShardVersionRun v env (store.getD i default) with e | ver
      · exact ⟨rfl, rfl, rfl, execOnly_fence _ _ rfl⟩
      · have hsh := splitChunkRun_fst v env (store.getD i default) (mkSplitArgs cs (store.getD i default) ver)
        rcases hr2 : (splitChunkRun v env (store.getD i default) (mkSplitArgs cs (store.getD i default) ver)).2 with _ | err <;>
          rcases hsh with h1 | ⟨okv, h1⟩ <;> simp only [hr2, h1]
        · simp only [List.cons_append, List.singleton_append]
          refine ⟨rfl, fencedPairs_fence_exec _ _ _ ih1 ih2, ?_, ?_⟩
          · exact allNotPlan_cons _ _ rfl (allNotPlan_cons _ _ rfl ih3)
          · exact execOnly_fence _ _ (execOnly_exec _ _ _ hcs ih4)
        · simp only [List.cons_append, List.append_assoc, List.singleton_append]
          refine ⟨rfl, ?_, ?_, ?_⟩
          · exact fencedPairs_fence_exec _ _ _ rfl (fencedPairs_cons _ _ ih1 ih2)
          · exact allNotPlan_cons _ _ rfl (allNotPlan_cons _ _ rfl (allNotPlan_cons _ _ rfl ih3))
          · exact execOnly_fence _ _ (execOnly_exec _ _ _ hcs (execOnly_log _ _ _ ih4))
        · refine ⟨rfl, fencedPairs_fence_exec _ _ _ rfl rfl, ?_, ?_⟩
          · exact allNotPlan_cons _ _ rfl (allNotPlan_cons _ _ rfl rfl)
          · exact execOnly_fence _ _ (execOnly_exec _ _ _ hcs rfl)
        · refine ⟨rfl, ?_, ?_, ?_⟩
          · exact fencedPairs_fence_exec _ _ _ rfl rfl
          · exact allNotPlan_cons _ _ rfl (allNotPlan_cons _ _ rfl (allNotPlan_cons _ _ rfl rfl))
          · exact execOnly_fence _ _ (execOnly_exec _ _ _ hcs (execOnly_log _ _ _ rfl))
    · rw [if_neg hcs]
      exact ⟨ih1, ih2, ih3, ih4⟩

theorem mainRun_fst_cases (v : Variant) (env : Env) (cfg : Cfg) (doSplit : Bool)
    (store0 : List Chunk) :
    (mainRun v env cfg doSplit store0).1 = [] ∨
    (∃ idxs store1, (mainRun v env cfg doSplit store0).1 =
      (step3Aux env cfg.maxChunkSize idxs store1).1) ∨
    (∃ idxs store1 store2, doSplit = true ∧
      (mainRun v env cfg doSplit store0).1 =
        (step3Aux env cfg.maxChunkSize idxs store1).1 ++
          (step4Aux v env cfg.configsvr store2 idxs).1) := by
  unfold mainRun
  split
  · exact .inl rfl
  · split
    · exact .inl rfl
    · split
      · exact .inl rfl
      · split
        · exact .inr (.inl ⟨_, _, rfl⟩)
        · split
          · exact .inr (.inl ⟨_, _, rfl⟩)
          · split
            · split
              · exact .inr (.inl ⟨_, _, rfl⟩)
              · exact .inr (.inr ⟨_, _, _, by simp_all, rfl⟩)
            · exact .inr (.inl ⟨_, _, rfl⟩)

theorem filter_isExec_nil (tr : List Event)
    (h : tr.all (fun e => !(Event.isExec e)) = true) :
    tr.filter Event.isExec = [] := by
  induction tr with
  | nil => rfl
  | cons a r ihr =>
    simp only [List.all_cons, Bool.and_eq_true] at h
    rw [List.filter_cons]
    have ha : Event.isExec a = false := by simpa using h.1
    simp [ha, ihr h.2]

theorem not_fence_of_isPlan (e : Event) (h : Event.isPlan e = true) :
    (!(Event.isFence e)) = true := by
  cases e <;> simp_all [Event.isPlan, Event.isFence]

theorem all_not_fence_of_all_isPlan (tr : List Event) (h : tr.all Event.isPlan = true) :
    tr.all (fun e => !(Event.isFence e)) = true := by
  rw [List.all_eq_true] at h ⊢
  exact fun e he => not_fence_of_isPlan e (h e he)

theorem execOnly_of_all_isPlan (tr : List Event) (h : tr.all Event.isPlan = true) :
    execOnlySplittable tr = true := by
  unfold execOnlySplittable
  rw [List.all_eq_true] at h ⊢
  intro e he
  have := h e he
  cases e <;> simp_all [Event.isPlan]

/-! ### Concrete run data used by the claim theorems and witnesses -/

/-- A fresh sampled chunk, as it comes out of step 1. -/
def chunkC1 : Chunk :=
  { datasize := "test.s", keyPattern := "k", min := 0, max := 100,
    estimate := true, shard := "sh0" }

/-- The spec's own scenario: the cheap estimate reports 95 MiB, the exact
measurement 80 MiB. -/
def envC1 : Env :=
  { datasizeRes := fun c =>
      if c.estimate then some (95 * 1048576) else some (80 * 1048576),
    splitKeysRes := fun _ => some [50],
    chunkVersionDoc := fun _ => some (3, 7),
    nsVersionRes := fun _ => some (3, 7),
    splitRes := fun _ => some 1,
    authorized := true }

/-- ESTIMATE_THEN_VERIFY mode with a 90 MiB threshold. -/
def cfgC1 : Cfg :=
  { optimize := true, doublecheck := true, maxChunkSize := 100 * 1048576,
    splitThreshold := 90 * 1048576, configsvr := "csrs/cfg" }

/-- Two planned candidates, as they stand at the start of step 4. -/
def cC3a : Chunk :=
  { datasize := "test.s", keyPattern := "k", min := 0, max := 100,
    estimate := true, shard := "sh0", chunkSize := some 1000,
    canSplit := some true, splitVector := some [50] }

def cC3b : Chunk :=
  { datasize := "test.s", keyPattern := "k", min := 200, max := 300,
    estimate := true, shard := "sh1", chunkSize := some 1000,
    canSplit := some true, splitVector := some [250] }

/-- The split command for the first candidate is rejected (ok 0), the one
for the second succeeds (ok 1). -/
def envC3 : Env :=
  { datasizeRes := fun _ => none,
    splitKeysRes := fun _ => none,
    chunkVersionDoc := fun _ => some (3, 7),
    nsVersionRes := fun _ => some (3, 7),
    splitRes := fun a => if a.min = 0 then some 0 else some 1,
    authorized := true }

def argsC3a : SplitArgs := mkSplitArgs "csrs/cfg" cC3a (3, 7)

def argsC3b : SplitArgs := mkSplitArgs "csrs/cfg" cC3b (3, 7)

/-- Default estimate-only configuration with a 90 MiB threshold. -/
def cfgPlain : Cfg :=
  { optimize := true, doublecheck := false, maxChunkSize := 100 * 1048576,
    splitThreshold := 90 * 1048576, configsvr := "csrs/cfg" }

/-- The size query for the first chunk (min 0) returns no size field; the
query for any other chunk returns a size well above the threshold. -/
def envC4 : Env :=
  { datasizeRes := fun c => if c.min = 0 then none else some (95 * 1048576),
    splitKeysRes := fun _ => none,
    chunkVersionDoc := fun _ => none,
    nsVersionRes := fun _ => none,
    splitRes := fun _ => none,
    authorized := true }

/-- A second sampled chunk, behind `chunkC1` in the discovery list. -/
def chunkC4 : Chunk :=
  { datasize := "test.s", keyPattern := "k", min := 100, max := 200,
    estimate := true, shard := "sh0" }

/-- Every size query reports exactly the 90 MiB threshold. -/
def envC5 : Env :=
  { datasizeRes := fun _ => some (90 * 1048576),
    splitKeysRes := fun _ => none,
    chunkVersionDoc := fun _ => none,
    nsVersionRes := fun _ => none,
    splitRes := fun _ => none,
    authorized := true }

/-! ### Claim theorems -/

/-- C1 (code_bug evaluation): under ESTIMATE_THEN_VERIFY
(OPTIMIZE_CHUNK_SIZE_CALCULATION and DOUBLECHECK_CHUNK_SIZE both true)
`checkChunkSize2` does re-issue the query in exact mode and return the
exact value, but the reclassification of a false positive never happens:
the inner comparison re-tests the stale estimated size, so at the spec's
own scenario (estimate 95 MiB, exact 80 MiB, threshold 90 MiB) the
function returns the exact 80 MiB instead of the sentinel -1 and step 2
still pushes the chunk into the candidate list. -/
theorem checkChunkSize2_keeps_false_positive :
    checkChunkSize2 envC1 cfgC1 chunkC1 =
      .ok ({ chunkC1 with estimate := false }, 80 * 1048576) ∧
    step2 .iife envC1 cfgC1 [chunkC1] =
      .ok ([{ chunkC1 with
                estimate := false
                chunkSize := some (80 * 1048576)
                canSplit := some false }], [0]) := by
  constructor
  · norm_num [checkChunkSize2, envC1, cfgC1, chunkC1]
  · norm_num [step2, step2Aux, checkChunk, checkChunkSize2, envC1, cfgC1, chunkC1,
      List.range_succ]

/-- C3 (code_bug evaluation): a rejected split (response ok 0) in the
splitCollectionChunks variant is logged with the full request and the
loop continues to the next candidate, exactly as the claim states; but in
the IIFE variant `assert(res.ok)` throws on the falsy 0, aborting the run
after the first split command, before the error printout and before the
remaining candidate. -/
theorem split_rejection_continues_func_aborts_iife :
    step4Aux .func envC3 "csrs/cfg" [cC3a, cC3b] [0, 1] =
      ([Event.fenceRead cC3a, Event.execSplit cC3a argsC3a,
        Event.logFailure argsC3a 0,
        Event.fenceRead cC3b, Event.execSplit cC3b argsC3b], none) ∧
    step4Aux .iife envC3 "csrs/cfg" [cC3a, cC3b] [0, 1] =
      ([Event.fenceRead cC3a, Event.execSplit cC3a argsC3a],
        some "assert failed on a falsy ok value") := ⟨rfl, rfl⟩

/-- C6 counterexample: the sources compute `count * percentage` with a
lower clamp of 1 and no rounding, so at 10 chunks and a sampling fraction
of 1/4 the requested sample size is 2.5, not the claim's
max(1, round(2.5)) = 3. -/
theorem sampleValue_not_rounded :
    sampleValue 10 (1 / 4) = 5 / 2 ∧ sampleSizeClaim 10 (1 / 4) = 3 ∧
    sampleValue 10 (1 / 4) ≠ sampleSizeClaim 10 (1 / 4) := by
  refine ⟨by norm_num [sampleValue], by norm_num [sampleSizeClaim, round_eq], ?_⟩
  norm_num [sampleValue, sampleSizeClaim, round_eq]

/-- C6 (amended): the requested sample size is `count * fraction` when
that product is at least 1, and 1 otherwise, with no rounding; in
particular a fraction of 1 requests exactly the namespace's total chunk
count. -/
theorem sampleValue_eq_clamped_product (count : ℕ) (fraction : ℚ)
    (h1 : 0 < fraction) (h2 : fraction ≤ 1) :
    ((count : ℚ) * fraction < 1 → sampleValue count fraction = 1) ∧
    (1 ≤ (count : ℚ) * fraction → sampleValue count fraction = (count : ℚ) * fraction) ∧
    (fraction = 1 → 1 ≤ count → sampleValue count fraction = (count : ℚ)) := by
  refine ⟨fun h => ?_, fun h => ?_, fun hf hc => ?_⟩
  · simp only [sampleValue]
    rw [if_pos h]
  · simp only [sampleValue]
    rw [if_neg (by linarith)]
  · subst hf
    simp only [sampleValue, mul_one]
    rw [if_neg (by exact_mod_cast Nat.not_lt.mpr hc)]

/-- C6 witness: at 10 chunks and fraction 1 the sampler is asked for all
10 chunks. -/
theorem sampleValue_full_coverage_witness : sampleValue 10 1 = (10 : ℚ) :=
  (sampleValue_eq_clamped_product 10 1 (by norm_num) (by norm_num)).2.2 rfl (by norm_num)

/-- C9 (code_bug evaluation): the maximum chunk size defaults to 64 MiB
when unconfigured and is the configured value converted to bytes
otherwise, and both variants abort on a negative configured value; the
IIFE variant also aborts on 0 (its truthiness assert), but the
splitCollectionChunks variant accepts a configured value of 0 — despite
its own assertion message — and proceeds with a maximum chunk size of 0
bytes rather than aborting. -/
theorem getChunkSize_nonpositive_handling :
    getChunkSize none = .ok (64 * 1024 * 1024) ∧
    getChunkSizeFunc none = .ok (64 * 1024 * 1024) ∧
    getChunkSize (some ⟨some 8⟩) = .ok (8 * 1024 * 1024) ∧
    getChunkSizeFunc (some ⟨some 8⟩) = .ok (8 * 1024 * 1024) ∧
    getChunkSize (some ⟨some 0⟩) = .error "value field is not present" ∧
    getChunkSize (some ⟨some (-5)⟩) =
      .error "maximum chunksize value is less than or equal to 0" ∧
    getChunkSizeFunc (some ⟨some (-5)⟩) =
      .error "maximum chunksize value is less than or equal to 0" ∧
    getChunkSizeFunc (some ⟨some 0⟩) = .ok (0 * 1024 * 1024) := by
  refine ⟨rfl, rfl, ?_, ?_, rfl, rfl, rfl, ?_⟩ <;>
    norm_num [getChunkSize, getChunkSizeFunc]

/-- C2: when the apply-splits argument (DO_SPLIT) is false, the trace of
any run — either variant, any environment, any configuration, any sampled
chunk list — contains no split command at all. -/
theorem no_split_issued_when_doSplit_false (v : Variant) (env : Env) (cfg : Cfg)
    (store0 : List Chunk) :
    (mainRun v env cfg false store0).1.filter Event.isExec = [] := by
  rcases mainRun_fst_cases v env cfg false store0 with h | ⟨idxs, store1, h⟩ | ⟨_, _, _, hds, _⟩
  · rw [h]
    rfl
  · rw [h]
    exact filter_isExec_nil _
      (all_not_exec_of_all_isPlan _ (step3Aux_events env cfg.maxChunkSize idxs store1))
  · exact absurd hds (by simp)

/-- C4 counterexample: the size query for the first sampled chunk returns
no usable size value, and instead of excluding only that chunk and
continuing with the second one (which measures well above the threshold
and would qualify), the uncaught assert aborts the entire step 2 — no
candidate list is produced, refuting the claim that the failure is local
to the one chunk. -/
theorem missing_size_aborts_run_cex :
    envC4.datasizeRes chunkC1 = none ∧
    step2 .iife envC4 cfgPlain [chunkC1, chunkC4] =
      .error "The size field is not present it the response" := by
  refine ⟨rfl, ?_⟩
  norm_num [step2, step2Aux, checkChunk, checkChunkSize2, envC4, cfgPlain, chunkC1,
    chunkC4, List.range_succ]

/-- C4 (amended): when the remote size query returns no usable size value
for any sampled chunk, the assertion failure aborts the entire run at
that point: step 2 ends in an error, the remaining chunks are not
processed and no candidate list is produced. -/
theorem step2_aborts_on_missing_size (v : Variant) (env : Env) (cfg : Cfg)
    (store : List Chunk) (i : ℕ) (h1 : i < store.length)
    (h2 : env.datasizeRes (store.getD i default) = none) :
    ∃ e, step2 v env cfg store = .error e :=
  step2Aux_error_of_missing v env cfg (List.range store.length) store [] i
    (List.nodup_range _) (List.mem_range.mpr h1) h2

/-- C4 witness: the amended theorem applied to the concrete two-chunk run
of the counterexample. -/
theorem step2_aborts_on_missing_size_witness :
    ∃ e, step2 .iife envC4 cfgPlain [chunkC1, chunkC4] = .error e :=
  step2_aborts_on_missing_size .iife envC4 cfgPlain [chunkC1, chunkC4] 0
    (by norm_num) rfl

/-- C5 counterexample: a chunk measuring exactly the 90 MiB threshold —
which by the claim must be dropped, since only sizes strictly above the
threshold qualify — is pushed onto the candidate list by the
splitCollectionChunks variant, whose comparison is non-strict. -/
theorem at_threshold_chunk_becomes_candidate :
    envC5.datasizeRes chunkC1 = some cfgPlain.splitThreshold ∧
    step2 .func envC5 cfgPlain [chunkC1] =
      .ok ([{ chunkC1 with
                chunkSize := some (90 * 1048576)
                canSplit := some false }], [0]) := by
  refine ⟨rfl, ?_⟩
  norm_num [step2, step2Aux, checkChunk, checkChunkSize, envC5, cfgPlain, chunkC1,
    List.range_succ]

/-- C5 (amended): in the default estimate-only mode (DOUBLECHECK off) and
with a positive threshold, a sampled chunk is pushed onto the candidate
list iff its measured size qualifies, where the qualifying comparison is
size strictly greater than SPLIT_THRESHOLD in the IIFE variant but size
greater than or equal to SPLIT_THRESHOLD in the splitCollectionChunks
variant — a chunk exactly at the threshold is kept there. -/
theorem candidate_iff_qualifies (v : Variant) (env : Env) (cfg : Cfg)
    (store store2 : List Chunk) (ts : List ℕ)
    (hdc : cfg.doublecheck = false) (hthr : 0 < cfg.splitThreshold)
    (h : step2 v env cfg store = .ok (store2, ts)) (i : ℕ) :
    i ∈ ts ↔ i < store.length ∧
      ∃ sz, env.datasizeRes (store.getD i default) = some sz ∧
        qualifies v sz cfg.splitThreshold = true := by
  have hts := step2Aux_ok_ts v env cfg (List.range store.length) store [] store2 ts
    (List.nodup_range _) h
  rw [hts]
  simp only [List.nil_append, List.mem_filter, List.mem_range]
  constructor
  · rintro ⟨hir, hpb⟩
    refine ⟨hir, ?_⟩
    rw [pushB_eq v env cfg _ hdc hthr] at hpb
    rcases hres : env.datasizeRes (store.getD i default) with _ | sz
    · rw [hres] at hpb
      exact absurd hpb (by simp)
    · rw [hres] at hpb
      exact ⟨sz, rfl, hpb⟩
  · rintro ⟨hir, sz, hres, hq⟩
    refine ⟨hir, ?_⟩
    rw [pushB_eq v env cfg _ hdc hthr, hres]
    exact hq

/-- C5 witness: the amended theorem applied to the concrete at-threshold
run: index 0 is a candidate, and indeed its measured size qualifies under
the splitCollectionChunks comparison. -/
theorem candidate_iff_qualifies_witness :
    0 ∈ [0] ↔ 0 < ([chunkC1] : List Chunk).length ∧
      ∃ sz, envC5.datasizeRes (([chunkC1] : List Chunk).getD 0 default) = some sz ∧
        qualifies .func sz cfgPlain.splitThreshold = true :=
  candidate_iff_qualifies .func envC5 cfgPlain [chunkC1]
    [{ chunkC1 with
         chunkSize := some (90 * 1048576)
         canSplit := some false }] [0] rfl (by norm_num [cfgPlain])
    (by norm_num [step2, step2Aux, checkChunk, checkChunkSize, envC5, cfgPlain,
        chunkC1, List.range_succ]) 0

/-- C7: (1) a candidate that enters step 3 with canSplit false leaves
`getSplitVector` with canSplit true iff the split-point query returned a
non-empty splitKeys vector; (2) step 2 stamps canSplit false on every
pushed candidate; and (3) in every run — either variant, applySplits
true or false — every split command in the trace is issued for a chunk
whose canSplit annotation is true, so a zero-split-point candidate is
never passed to the executor. -/
theorem splittable_iff_nonempty_and_gated :
    (∀ (env : Env) (mcs : ℚ) (c c2 : Chunk), c.canSplit = some false →
        getSplitVector env mcs c = .ok c2 →
        (c2.canSplit = some true ↔
          ∃ sv, env.splitKeysRes (mkSVArgs mcs c) = some sv ∧ sv ≠ [])) ∧
    (∀ (v : Variant) (env : Env) (cfg : Cfg) (store : List Chunk),
        pushedCanSplitFalse v env cfg store = true) ∧
    (∀ (v : Variant) (env : Env) (cfg : Cfg) (doSplit : Bool) (store0 : List Chunk),
        execOnlySplittable (mainRun v env cfg doSplit store0).1 = true) := by
  refine ⟨?_, ?_, ?_⟩
  · intro env mcs c c2 hcf hok
    unfold getSplitVector at hok
    rcases hres : env.splitKeysRes (mkSVArgs mcs c) with _ | sv <;> simp only [hres] at hok
    · exact absurd hok (by simp)
    · by_cases hl : sv.length > 0
      · rw [if_pos hl] at hok
        simp only [Except.ok.injEq] at hok
        rw [← hok]
        simp only [true_iff]
        exact ⟨sv, rfl, fun hnil => by simp [hnil] at hl⟩
      · rw [if_neg hl] at hok
        simp only [Except.ok.injEq] at hok
        rw [← hok]
        constructor
        · intro hC
          rw [hcf] at hC
          exact absurd hC (by simp)
        · rintro ⟨sv2, hs2, hne2⟩
          simp only [Option.some.injEq] at hs2
          subst hs2
          exact absurd (by simpa using hl) hne2
  · intro v env cfg store
    unfold pushedCanSplitFalse
    rcases h : step2 v env cfg store with e | ⟨store2, ts⟩
    · rfl
    · rw [List.all_eq_true]
      intro i hi
      have hts := step2Aux_ok_ts v env cfg _ store [] store2 ts (List.nodup_range _) h
      rw [hts] at hi
      simp only [List.nil_append, List.mem_filter, List.mem_range] at hi
      obtain ⟨hlen2, hunt, hproc⟩ := step2Aux_ok_store v env cfg _ store [] store2 ts
        (List.nodup_range _) (fun j hj => List.mem_range.mp hj) h
      obtain ⟨c2, sz, hcc, hentry⟩ := hproc i (List.mem_range.mpr hi.1)
      have hsz : sz > 0 := by
        have hp := hi.2
        unfold pushB at hp
        rw [hcc] at hp
        simpa using hp
      rw [hentry, if_pos hsz]
      simp
  · intro v env cfg doSplit store0
    rcases mainRun_fst_cases v env cfg doSplit store0 with h | ⟨idxs, store1, h⟩ |
      ⟨idxs, store1, store2, _, h⟩ <;> rw [h]
    · rfl
    · exact execOnly_of_all_isPlan _ (step3Aux_events env cfg.maxChunkSize idxs store1)
    · have h3 := execOnly_of_all_isPlan _ (step3Aux_events env cfg.maxChunkSize idxs store1)
      have h4 := (step4Aux_wf v env cfg.configsvr store2 idxs).2.2.2
      unfold execOnlySplittable at h3 h4 ⊢
      rw [List.all_append, Bool.and_eq_true]
      exact ⟨h3, h4⟩

/-- A pushed candidate as it enters step 3. -/
def cC7 : Chunk := { chunkC1 with chunkSize := some 1000, canSplit := some false }

/-- The same candidate after `getSplitVector` annotated it. -/
def cC7split : Chunk := { cC7 with canSplit := some true, splitVector := some [50] }

/-- C7 witness: the three parts applied at concrete inputs — a candidate
whose split-point query returns the single key 50 comes out splittable
(and the iff certifies the non-empty vector), the concrete step 2 run
stamps canSplit false, and the trace of a full concrete run satisfies the
execution gate. -/
theorem splittable_iff_nonempty_and_gated_witness :
    (cC7split.canSplit = some true ↔
      ∃ sv, envC1.splitKeysRes (mkSVArgs cfgC1.maxChunkSize cC7) = some sv ∧ sv ≠ []) ∧
    pushedCanSplitFalse .iife envC1 cfgC1 [chunkC1] = true ∧
    execOnlySplittable (mainRun .iife envC1 cfgC1 true [chunkC1]).1 = true :=
  ⟨splittable_iff_nonempty_and_gated.1 envC1 cfgC1.maxChunkSize cC7 cC7split rfl rfl,
    splittable_iff_nonempty_and_gated.2.1 .iife envC1 cfgC1 [chunkC1],
    splittable_iff_nonempty_and_gated.2.2 .iife envC1 cfgC1 true [chunkC1]⟩

/-- C8: in every run the trace never opens with a split command and every
split command is immediately preceded by the version-fence read of the
same candidate (the fence is read inside the per-candidate execution
step), and no split-point (planning) query occurs at or after the first
fence read — the fence is not read at, or cached from, planning time. -/
theorem fence_read_immediately_before_split (v : Variant) (env : Env) (cfg : Cfg)
    (doSplit : Bool) (store0 : List Chunk) :
    execsImmediatelyFenced (mainRun v env cfg doSplit store0).1 = true ∧
    noPlanAfterFence (mainRun v env cfg doSplit store0).1 = true := by
  rcases mainRun_fst_cases v env cfg doSplit store0 with h | ⟨idxs, store1, h⟩ |
    ⟨idxs, store1, store2, _, h⟩ <;> rw [h]
  · exact ⟨rfl, rfl⟩
  · have hall := step3Aux_events env cfg.maxChunkSize idxs store1
    have hne := all_not_exec_of_all_isPlan _ hall
    constructor
    · unfold execsImmediatelyFenced
      rw [Bool.and_eq_true]
      exact ⟨headNotExec_of_not_exec _ hne, fencedPairs_of_not_exec _ hne⟩
    · unfold noPlanAfterFence
      have hnf := all_not_fence_of_all_isPlan _ hall
      have hdw := dropWhile_append_all (q := fun e => !(Event.isFence e))
        (step3Aux env cfg.maxChunkSize idxs store1).1 []
        (fun x hx => List.all_eq_true.mp hnf x hx)
      simp only [List.append_nil] at hdw
      rw [hdw]
      rfl
  · obtain ⟨h41, h42, h43, _⟩ := step4Aux_wf v env cfg.configsvr store2 idxs
    have hall := step3Aux_events env cfg.maxChunkSize idxs store1
    have hne := all_not_exec_of_all_isPlan _ hall
    constructor
    · unfold execsImmediatelyFenced
      rw [Bool.and_eq_true]
      exact ⟨headNotExec_append _ _ hne h41,
        fencedPairs_append _ _ (fencedPairs_of_not_exec _ hne) h41 h42⟩
    · unfold noPlanAfterFence
      rw [dropWhile_append_all _ _
        (fun x hx => List.all_eq_true.mp (all_not_fence_of_all_isPlan _ hall) x hx)]
      exact all_dropWhile _ h43

/-- C10: the pipeline mutates the shared chunk objects in place.
(1) In double-check mode, whenever the first (estimated) measurement
exceeds the threshold and the check succeeds, the chunk object that comes
out carries estimate = false.  (2) Step 2's candidate list holds indices
into the discovery store, and after step 2 every pushed index points at a
store entry — the very entry of the discovery list CHUNKS — annotated
with its positive chunkSize and canSplit = false.  (3) Step 3 writes the
canSplit = true and splitVector annotations onto the same store entries. -/
theorem annotations_on_shared_store :
    (∀ (env : Env) (cfg : Cfg) (c c2 : Chunk) (sz s0 : ℚ),
       cfg.optimize = true → cfg.doublecheck = true →
       env.datasizeRes c = some s0 → cfg.splitThreshold < s0 →
       checkChunkSize2 env cfg c = .ok (c2, sz) → c2.estimate = false) ∧
    (∀ (v : Variant) (env : Env) (cfg : Cfg) (store store2 : List Chunk) (ts : List ℕ),
       step2 v env cfg store = .ok (store2, ts) →
       store2.length = store.length ∧
       ∀ i ∈ ts, i < store.length ∧ ∃ sz : ℚ, 0 < sz ∧
         (store2.getD i default).chunkSize = some sz ∧
         (store2.getD i default).canSplit = some false) ∧
    (∀ (env : Env) (mcs : ℚ) (idxs : List ℕ) (store store2 : List Chunk)
       (evs : List Event) (sv : List ℤ),
       idxs.Nodup → (∀ j ∈ idxs, j < store.length) →
       step3Aux env mcs idxs store = (evs, .ok store2) →
       ∀ i ∈ idxs, env.splitKeysRes (mkSVArgs mcs (store.getD i default)) = some sv →
         sv ≠ [] →
         store2.getD i default =
           { store.getD i default with canSplit := some true, splitVector := some sv }) := by
  refine ⟨?_, ?_, ?_⟩
  · intro env cfg c c2 sz s0 hopt hdc hres hthr h
    unfold checkChunkSize2 at h
    simp only [hres] at h
    by_cases h0 : s0 = 0
    · rw [if_pos h0] at h
      exact absurd h (by simp)
    · rw [if_neg h0, if_pos hthr] at h
      simp only [hopt, hdc, Bool.and_self, eq_self_iff_true, if_true] at h
      rcases hres2 : env.datasizeRes { c with estimate := false } with _ | sz2 <;>
        simp only [hres2] at h
      · exact absurd h (by simp)
      · by_cases h02 : sz2 = 0
        · rw [if_pos h02] at h
          exact absurd h (by simp)
        · rw [if_neg h02] at h
          by_cases hin : s0 > cfg.splitThreshold
          · rw [if_pos hin] at h
            simp only [Except.ok.injEq, Prod.mk.injEq] at h
            rw [← h.1]
          · rw [if_neg hin] at h
            simp only [Except.ok.injEq, Prod.mk.injEq] at h
            rw [← h.1]
  · intro v env cfg store store2 ts h
    obtain ⟨hlen, hunt, hproc⟩ := step2Aux_ok_store v env cfg _ store [] store2 ts
      (List.nodup_range _) (fun j hj => List.mem_range.mp hj) h
    refine ⟨hlen, ?_⟩
    intro i hi
    have hts := step2Aux_ok_ts v env cfg _ store [] store2 ts (List.nodup_range _) h
    rw [hts] at hi
    simp only [List.nil_append, List.mem_filter, List.mem_range] at hi
    refine ⟨hi.1, ?_⟩
    obtain ⟨c2, sz, hcc, hentry⟩ := hproc i (List.mem_range.mpr hi.1)
    have hsz : sz > 0 := by
      have hp := hi.2
      unfold pushB at hp
      rw [hcc] at hp
      simpa using hp
    exact ⟨sz, hsz, by rw [hentry, if_pos hsz], by rw [hentry, if_pos hsz]⟩
  · intro env mcs idxs store store2 evs sv hnd hb h3 i hi hres hnil
    obtain ⟨hlen, hunt, hproc⟩ := step3Aux_ok_store env mcs idxs store store2 evs hnd hb h3
    have hgv := hproc i hi
    unfold getSplitVector at hgv
    simp only [hres] at hgv
    rw [if_pos (List.length_pos.mpr hnil)] at hgv
    simp only [Except.ok.injEq] at hgv
    exact hgv.symm

/-- The entry of the discovery store after the concrete step 2 run. -/
def annotC1 : Chunk :=
  { chunkC1 with
      estimate := false
      chunkSize := some (80 * 1048576)
      canSplit := some false }

/-- C10 witness: the three parts applied at concrete inputs — the
double-checked chunk comes out with estimate false, the concrete step 2
run leaves the annotated object at index 0 of the discovery store, and
the concrete step 3 run writes the splitVector annotation onto the same
store entry. -/
theorem annotations_on_shared_store_witness :
    (({ chunkC1 with estimate := false } : Chunk).estimate = false) ∧
    (([annotC1] : List Chunk).length = ([chunkC1] : List Chunk).length ∧
      ∀ i ∈ ([0] : List ℕ), i < ([chunkC1] : List Chunk).length ∧ ∃ sz : ℚ, 0 < sz ∧
        (([annotC1] : List Chunk).getD i default).chunkSize = some sz ∧
        (([annotC1] : List Chunk).getD i default).canSplit = some false) ∧
    (([cC7split] : List Chunk).getD 0 default =
      { ([cC7] : List Chunk).getD 0 default with
          canSplit := some true
          splitVector := some [50] }) :=
  ⟨annotations_on_shared_store.1 envC1 cfgC1 chunkC1 { chunkC1 with estimate := false }
      (80 * 1048576) (95 * 1048576) rfl rfl rfl (by norm_num [cfgC1])
      (by norm_num [checkChunkSize2, envC1, cfgC1, chunkC1]),
    annotations_on_shared_store.2.1 .iife envC1 cfgC1 [chunkC1] [annotC1] [0]
      (by norm_num [step2, step2Aux, checkChunk, checkChunkSize2, envC1, cfgC1, chunkC1,
        annotC1, List.range_succ]),
    annotations_on_shared_store.2.2 envC1 cfgC1.maxChunkSize [0] [cC7] [cC7split]
      [Event.splitPtsQuery (mkSVArgs cfgC1.maxChunkSize cC7)] [50]
      (by simp) (by simp) rfl 0 (by simp) rfl (by simp)⟩

end MsChunkSplit
